import Mathlib

/-!
# sage: `src/bindings/server.go`

A shallow embedding of the HTTP-to-callback bridge of `server.go` and the
properties of its correlation table.

The program is concurrent: net/http runs the handler closure of `ServerNew` once
per inbound request, each run in its own goroutine, and `ServerRespond` is called
from outside. The embedding is an interleaving semantics: a state holds the
package-level variables, the closure variable `requestId`, and the local variables
and program point of every handler run and of every `ServerRespond` call; `next`
executes one atomic step. Statements that touch no shared variable are folded into
a neighbouring step; a section under `serverRequestLock` is one step. The counter
`requestId` is read and written outside any lock: the read on line 37 is a step,
and `requestId++` on line 43 is two steps, a load and a store, so that an increment
of one run can fall between the load and the store of another.

Conventions.
* The steps are those of one listener: `ServerNew`, the handler runs and the calls
  of `ServerRespond`. `ServerDestroy` (lines 116-121) is not part of the step
  relation.
* Go `int` is taken at 64 bits: the store of `requestId++` wraps (`wrapInt`).
  Other integers are `Int`.
* `serverRequests` is only ever indexed, assigned and deleted from, so it is a
  function `Int → Option Chan`. Maps that the code ranges over are association
  lists, visited in list order.
* A channel is the number of the `make` that created it. Channels are unbuffered:
  a send completes only together with a receive (`Label.receive`).
* The `http.ResponseWriter` a handler is given is the one of net/http for
  HTTP/1.x; `ResponseWriter` follows what that writer does on the three calls the
  handler makes: `Header().Set`, `WriteHeader` and `Write`.
* `time.After` is a step that may fire whenever the handler is in its `select`.
* `json.Marshal` failing is kept as a possible step although the record has only
  strings, an int and a string map; the encoded text, the sequence token and the
  verbose printing are left out, `b.ui.Eval` is logged with the record it is given.
-/

namespace Sage

/-! ## Data -/

/-- Identity of one `make(chan serverResponse)`. -/
abbrev Chan := Nat

/-- A Go `map[string]V` that the code iterates: its entries, in iteration order. -/
abbrev StrMap (V : Type) := List (String × V)

/-- Map read `m[key]`, with the `ok` flag as the option. -/
def mapGet {V : Type} : StrMap V → String → Option V
  | [], _ => none
  | (k, v) :: rest, key => if k = key then some v else mapGet rest key

/-- Map assignment `m[key] = value`. -/
def mapSet {V : Type} : StrMap V → String → V → StrMap V
  | [], key, value => [(key, value)]
  | (k, v) :: rest, key, value =>
    if k = key then (key, value) :: rest else (k, v) :: mapSet rest key value

/-- The builtin `delete(m, key)` on an iterated map. -/
def mapDelete {V : Type} : StrMap V → String → StrMap V
  | [], _ => []
  | (k, v) :: rest, key => if k = key then mapDelete rest key else (k, v) :: mapDelete rest key

/-- The keys of a map. -/
def mapKeys {V : Type} (m : StrMap V) : List String := m.map Prod.fst

/-- A 64-bit `int` after an arithmetic operation: the value modulo `2^64`, in
`-2^63 .. 2^63 - 1`. -/
def wrapInt (x : Int) : Int := (x + 2 ^ 63) % 2 ^ 64 - 2 ^ 63

/-- The type `serverResponse` (lines 123-127). -/
structure serverResponse where
  StatusCode : Int
  Headers : StrMap String
  Body : String
  deriving DecidableEq, Repr

/-- The type `serverRequest` (lines 129-135). -/
structure serverRequest where
  Id : Int
  Method : String
  Url : String
  Headers : StrMap String
  Body : String
  deriving DecidableEq, Repr

/-- Modelled from the spec: the declaration of the options read through
`b.options` is not in `server.go`; these are the two fields the file reads, "a port
number and a verbosity flag". -/
structure Options where
  LoopbackPort : Int
  Verbose : Bool
  deriving DecidableEq, Repr

/-- Modelled from the spec: the declaration of `Bindings` is not in `server.go`;
the file reads `b.options` and calls `b.ui.Eval`, whose calls are logged in
`State.ui`. -/
structure Bindings where
  options : Options
  deriving DecidableEq, Repr

/-- What the handler reads of `*http.Request`. `URL` is the request target as
received, `Body` the result of `io.ReadAll(r.Body)`: `none` when the read fails. -/
structure Request where
  Method : String
  Host : String
  URL : String
  Header : StrMap (List String)
  Body : Option String
  deriving DecidableEq, Repr

/-! ### The response writer of net/http -/

/-- The punctuation allowed in a header field name besides letters and digits
(the last two are the apostrophe and the grave accent). -/
def tokenPunctuation : List Char :=
  "!#$%&*+-.^_|~".toList ++ [Char.ofNat 39, Char.ofNat 96]

/-- `validHeaderFieldByte` of net/textproto: the characters of an HTTP token. -/
def validHeaderFieldByte (c : Char) : Bool :=
  c.isAlphanum || decide (c ∈ tokenPunctuation)

/-- The loop of `canonicalMIMEHeaderKey`: upper case for the first letter and for a
letter after a hyphen, lower case for every other letter. -/
def canonicalLoop : Bool → List Char → List Char
  | _, [] => []
  | upper, c :: cs =>
    let c1 := if upper && c.isLower then c.toUpper
      else if !upper && c.isUpper then c.toLower else c
    c1 :: canonicalLoop (c1 == '-') cs

/-- `textproto.CanonicalMIMEHeaderKey`: a name made of token characters only is
put in canonical case, any other name is returned as it is. -/
def CanonicalMIMEHeaderKey (s : String) : String :=
  if s.toList.all validHeaderFieldByte then String.mk (canonicalLoop true s.toList) else s

/-- The test `err == nil && v >= 0` on `strconv.ParseInt(text, 10, 64)`, as
`WriteHeader` applies it to a `Content-Length` header: an optional sign, then one or
more decimal digits, the value fitting 64 bits and not negative. -/
def parseContentLength (text : String) : Option Int :=
  let digits := match text.toList with
    | '+' :: rest => rest
    | '-' :: rest => rest
    | cs => cs
  let negative := match text.toList with
    | '-' :: _ => true
    | _ => false
  if digits ≠ [] ∧ digits.all Char.isDigit then
    let n : Int := (digits.foldl (fun acc c => 10 * acc + (c.toNat - 48)) 0 : Nat)
    let v := if negative then -n else n
    if -(2 : Int) ^ 63 ≤ v ∧ v < 2 ^ 63 ∧ 0 ≤ v then some v else none
  else none

/-- The state of the `http.ResponseWriter` of one request, as the handler's calls
change it: the method of the request; the header map behind `w.Header()`; the
status code once the response header is written; the copy of the header map taken
when the status was written (`snapshot`), from which net/http builds the response
header, adding headers of its own; the 1xx codes sent as interim responses; the
length declared by a `Content-Length` header; the count of body bytes offered to
`Write`; the body bytes passed on to the connection. -/
structure ResponseWriter where
  reqMethod : String
  header : StrMap String
  status : Option Int
  snapshot : StrMap String
  interim : List Int
  contentLength : Option Int
  written : Int
  body : String
  deriving DecidableEq, Repr

/-- The writer handed to the handler of a request with this method. -/
def ResponseWriter.new (reqMethod : String) : ResponseWriter :=
  ⟨reqMethod, [], none, [], [], none, 0, ""⟩

/-- The writer after a handler has set the headers `snapshot`, written the final
status `status` and written `body`, all of it accepted. -/
def ResponseWriter.wrote (reqMethod : String) (status : Int) (snapshot : StrMap String)
    (body : String) : ResponseWriter :=
  { reqMethod := reqMethod, header := snapshot, status := some status, snapshot := snapshot,
    interim := [], contentLength := none, written := body.utf8ByteSize, body := body }

/-- The call `w.Header().Set(key, value)`: `http.Header.Set` stores the value under
the canonical form of the name. -/
def ResponseWriter.Set (w : ResponseWriter) (key value : String) : ResponseWriter :=
  { w with header := mapSet w.header (CanonicalMIMEHeaderKey key) value }

/-- The part of `WriteHeader` that writes a final status: the status is recorded,
the header map is copied for sending, and a `Content-Length` header is taken as the
declared length when it parses and dropped from the map when it does not. -/
def ResponseWriter.writeStatus (w : ResponseWriter) (code : Int) : ResponseWriter :=
  let w1 := { w with status := some code, snapshot := w.header }
  match mapGet w.header "Content-Length" with
  | none => w1
  | some cl =>
    if cl = "" then w1
    else match parseContentLength cl with
      | some v => { w1 with contentLength := some v }
      | none => { w1 with header := mapDelete w.header "Content-Length" }

/-- The call `w.WriteHeader(code)`; `none` is the panic "invalid WriteHeader code".
A second call is ignored; a code outside `100 .. 999` panics; a code in
`100 .. 199` other than 101 is sent as an interim response and leaves the final
status open; any other code is the final status. -/
def ResponseWriter.WriteHeader (w : ResponseWriter) (code : Int) : Option ResponseWriter :=
  match w.status with
  | some _ => some w
  | none =>
    if code < 100 ∨ code > 999 then none
    else if code ≤ 199 ∧ code ≠ 101 then some { w with interim := w.interim ++ [code] }
    else some (w.writeStatus code)

/-- `bodyAllowedForStatus` of net/http. -/
def bodyAllowedForStatus (status : Int) : Bool :=
  !(decide (100 ≤ status ∧ status ≤ 199) || decide (status = 204) || decide (status = 304))

/-- The call `w.Write(data)`: status 200 is written first when no final status was
written; empty data is nothing; data is refused when the status allows no body or
when it exceeds the declared length; on a HEAD request the data is counted and
dropped; otherwise it is appended to the body. -/
def ResponseWriter.Write (w : ResponseWriter) (data : String) : ResponseWriter :=
  let w1 := match w.status with
    | none => w.writeStatus 200
    | some _ => w
  if data.utf8ByteSize = 0 then w1
  else if !bodyAllowedForStatus (w1.status.getD 200) then w1
  else
    let w2 := { w1 with written := w1.written + data.utf8ByteSize }
    match w2.contentLength with
    | some cl => if w2.written > cl then w2
      else if w2.reqMethod = "HEAD" then w2 else { w2 with body := w2.body ++ data }
    | none => if w2.reqMethod = "HEAD" then w2 else { w2 with body := w2.body ++ data }

/-! ### Handler runs, calls and the program state -/

/-- The value `*http.Server` as far as the file uses it: its `Addr`. -/
structure Server where
  Addr : String
  deriving DecidableEq, Repr

/-- Program points of one run of the handler closure. -/
inductive HandlerPc
  /-- the run has not started -/
  | idle
  /-- before the load of `requestId++` (line 43) -/
  | increment
  /-- between the load and the store of `requestId++` (line 43) -/
  | store
  /-- before the header loop (line 44); the locked insert follows -/
  | register
  /-- blocked in the `select` (line 67) -/
  | select
  /-- before the locked `delete` (line 84) -/
  | cleanup
  /-- returned -/
  | done
  /-- the run has panicked: `value[0]` out of range (line 45) or an invalid code
  given to `WriteHeader` (line 72) -/
  | panicked
  deriving DecidableEq, Repr

/-- Local variables of one run of the handler closure; `loaded` is the value that
`requestId++` has read and not yet written back. -/
structure Handler where
  pc : HandlerPc
  r : Request
  request : serverRequest
  loaded : Int
  responseChannel : Option Chan
  w : ResponseWriter
  deriving DecidableEq, Repr

/-- A handler run that has not started. -/
def Handler.idle : Handler :=
  ⟨.idle, ⟨"", "", "", [], none⟩, ⟨0, "", "", [], ""⟩, 0, none, ResponseWriter.new ""⟩

/-- The run after a call on its writer: at `pc` with the writer the call left, or
panicked when the call panicked. -/
def Handler.after (h : Handler) (pc : HandlerPc) (w : Option ResponseWriter) : Handler :=
  match w with
  | some w1 => { h with pc := pc, w := w1 }
  | none => { h with pc := .panicked }

/-- Program points of one call of `ServerRespond`. -/
inductive Responder
  /-- the call has not been made -/
  | idle
  /-- blocked in `responseChannel <- response` (line 111) -/
  | sending (responseChannel : Chan) (response : serverResponse)
  /-- returned: `some msg` is `fmt.Errorf(msg)`, `none` is `nil` -/
  | returned (err : Option String)
  deriving DecidableEq, Repr

/-- The correlation table `serverRequests`. -/
abbrev Table := Int → Option Chan

/-- The builtin `delete(serverRequests, key)`. -/
def Table.delete (t : Table) (key : Int) : Table :=
  fun k => if k = key then none else t k

/-- The assignment `serverRequests[key] = c`. -/
def Table.insert (t : Table) (key : Int) (c : Chan) : Table :=
  fun k => if k = key then some c else t k

/-- The whole program state. `listeners`, `removed` and `lostUpdate` are history
variables that no step reads: the number of `go server.ListenAndServe()` executed;
the channel of every entry that a `delete` took out of the table, latest first;
and whether some `requestId++` has stored a value other than one more than the
counter held just before the store (another run wrote the counter between its load
and its store, or the sum wrapped). -/
structure State where
  server : Option Server
  listeners : Nat
  requestId : Int
  serverRequests : Table
  nextChan : Nat
  handlers : Nat → Handler
  responders : Nat → Responder
  ui : List serverRequest
  removed : List Chan
  lostUpdate : Bool

/-- The state of a process that has not called anything: `server` is nil, the
table is empty. -/
def initState : State :=
  { server := none, listeners := 0, requestId := 0, serverRequests := fun _ => none,
    nextChan := 0, handlers := fun _ => Handler.idle, responders := fun _ => Responder.idle,
    ui := [], removed := [], lostUpdate := false }

/-! ## The code -/

/-- The address `fmt.Sprintf("0.0.0.0:%d", b.options.LoopbackPort)` (line 18). -/
def bindAddr (b : Bindings) : String :=
  "0.0.0.0:" ++ toString b.options.LoopbackPort

/-- `ServerNew` (lines 17-24, 90-91): the returned string and the state after the
call. When `server` is nil it stores a server, starts the closure's counter at 0
and starts one listener. -/
def ServerNew (b : Bindings) (s : State) : String × State :=
  let addr := bindAddr b
  match s.server with
  | some _ => (addr, s)
  | none =>
    (addr, { s with server := some ⟨addr⟩, requestId := 0, listeners := s.listeners + 1 })

/-- `ServerDestroy` (lines 116-121): shut the server down, if there is one, and
forget it. -/
def ServerDestroy (s : State) : State :=
  match s.server with
  | some _ => { s with server := none }
  | none => s

/-- Lines 27-42: read the body; on failure write 500 and return; otherwise build
the request record, its `Id` being the current value of the counter. `r.URL.String()`
with host and scheme set is rendered as scheme, host and the request target; the
escaping done by `URL.String` is not reproduced, and no statement below reads `Url`. -/
def handlerBegin (requestId : Int) (r : Request) : Handler :=
  let h : Handler :=
    { pc := .idle, r := r, request := ⟨0, "", "", [], ""⟩, loaded := 0,
      responseChannel := none, w := ResponseWriter.new r.Method }
  match r.Body with
  | none => h.after .done (h.w.WriteHeader 500)
  | some body =>
    { h with
      pc := .increment,
      request := { Id := requestId, Method := r.Method, Url := "http://" ++ r.Host ++ r.URL,
                   Headers := [], Body := body } }

/-- Lines 44-46: the loop `request.Headers[key] = value[0]` over `r.Header`, run on
the headers collected so far; `none` when some `value[0]` is out of range. -/
def flattenHeaders : StrMap (List String) → StrMap String → Option (StrMap String)
  | [], headers => some headers
  | (_, []) :: _, _ => none
  | (key, v0 :: _) :: rest, headers => flattenHeaders rest (mapSet headers key v0)

/-- Lines 69-73 of the response branch: set every header of the record, write the
status code, write the body; `none` when `WriteHeader` panics. -/
def writeResponse (w : ResponseWriter) (response : serverResponse) : Option ResponseWriter :=
  ((response.Headers.foldl (fun acc kv => acc.Set kv.1 kv.2) w).WriteHeader
    response.StatusCode).map (fun w1 => w1.Write response.Body)

/-- Lines 95-110 of `ServerRespond`: the locked lookup and delete on the table, and
where the call stands afterwards: returned with the error, or about to send the
record on the channel it took. -/
def ServerRespond (requestId statusCode : Int) (headers : StrMap String) (body : String)
    (serverRequests : Table) : Table × Responder :=
  match serverRequests requestId with
  | some responseChannel =>
    (serverRequests.delete requestId, .sending responseChannel ⟨statusCode, headers, body⟩)
  | none => (serverRequests, .returned (some "invalid request id"))

/-- Replace the locals of handler run `i`. -/
def State.setHandler (s : State) (i : Nat) (h : Handler) : State :=
  { s with handlers := Function.update s.handlers i h }

/-- The atomic steps. -/
inductive Label
  /-- a call `b.ServerNew()` -/
  | serverNew (b : Bindings)
  /-- run `i` starts on request `r`, which needs a listener: lines 27-42 -/
  | accept (i : Nat) (r : Request)
  /-- run `i` reads the counter for `requestId++`: line 43 -/
  | incLoad (i : Nat)
  /-- run `i` writes the counter for `requestId++`: line 43 -/
  | incStore (i : Nat)
  /-- run `i` executes lines 44-65 with `json.Marshal` succeeding -/
  | register (i : Nat)
  /-- run `i` executes lines 44-56 with `json.Marshal` failing -/
  | marshalError (i : Nat)
  /-- run `i` receives what call `j` sends: lines 68-76 and 111-113 -/
  | receive (i j : Nat)
  /-- the timer of run `i` fires: lines 77-82 -/
  | timeout (i : Nat)
  /-- run `i` executes lines 84-86 and returns -/
  | cleanup (i : Nat)
  /-- call `j` is made with these arguments and executes lines 95-110 -/
  | respond (j : Nat) (requestId statusCode : Int) (headers : StrMap String) (body : String)
  deriving DecidableEq, Repr

/-- One atomic step; `none` when the step cannot be taken in this state. -/
def next (l : Label) (s : State) : Option State :=
  match l with
  | .serverNew b => some (ServerNew b s).2
  | .accept i r =>
    if s.server.isSome ∧ (s.handlers i).pc = .idle then
      some (s.setHandler i (handlerBegin s.requestId r))
    else none
  | .incLoad i =>
    if (s.handlers i).pc = .increment then
      some (s.setHandler i { s.handlers i with pc := .store, loaded := s.requestId })
    else none
  | .incStore i =>
    if (s.handlers i).pc = .store then
      some { s.setHandler i { s.handlers i with pc := .register } with
             requestId := wrapInt ((s.handlers i).loaded + 1),
             lostUpdate := s.lostUpdate ||
               decide (wrapInt ((s.handlers i).loaded + 1) ≠ s.requestId + 1) }
    else none
  | .register i =>
    let h := s.handlers i
    if h.pc = .register then
      match flattenHeaders h.r.Header h.request.Headers with
      | none => some (s.setHandler i { h with pc := .panicked })
      | some headers =>
        let request := { h.request with Headers := headers }
        let responseChannel := s.nextChan
        some { s.setHandler i { h with pc := .select, request := request,
                                       responseChannel := some responseChannel } with
               nextChan := s.nextChan + 1,
               serverRequests := s.serverRequests.insert request.Id responseChannel,
               ui := request :: s.ui }
    else none
  | .marshalError i =>
    let h := s.handlers i
    if h.pc = .register then
      match flattenHeaders h.r.Header h.request.Headers with
      | none => some (s.setHandler i { h with pc := .panicked })
      | some headers =>
        some (s.setHandler i
          ({ h with request := { h.request with Headers := headers } }.after .done
            (h.w.WriteHeader 500)))
    else none
  | .receive i j =>
    let h := s.handlers i
    match s.responders j with
    | .sending c response =>
      if h.pc = .select ∧ h.responseChannel = some c then
        some { s.setHandler i (h.after .cleanup (writeResponse h.w response)) with
               responders := Function.update s.responders j (.returned none) }
      else none
    | _ => none
  | .timeout i =>
    let h := s.handlers i
    if h.pc = .select then
      some (s.setHandler i (h.after .cleanup (h.w.WriteHeader 502)))
    else none
  | .cleanup i =>
    let h := s.handlers i
    if h.pc = .cleanup then
      some { s.setHandler i { h with pc := .done } with
             serverRequests := s.serverRequests.delete s.requestId,
             removed := match s.serverRequests s.requestId with
               | some c => c :: s.removed
               | none => s.removed }
    else none
  | .respond j requestId statusCode headers body =>
    if s.responders j = .idle then
      let res := ServerRespond requestId statusCode headers body s.serverRequests
      some { s with serverRequests := res.1,
                    responders := Function.update s.responders j res.2,
                    removed := match s.serverRequests requestId with
                      | some c => c :: s.removed
                      | none => s.removed }
    else none

/-- Run a schedule of steps from a state; `none` when one of them cannot be taken. -/
def run : List Label → State → Option State
  | [], s => some s
  | l :: tr, s => (next l s).bind (run tr)

/-- States the program can reach from `initState`. -/
def Reachable (s : State) : Prop := ∃ tr, run tr initState = some s

/-- The step registers `id`: it is the `register` step of a run whose `request.Id`
is `id`. -/
def registersId (id : Int) (l : Label) (s : State) : Bool :=
  match l with
  | .register i => decide ((s.handlers i).pc = .register ∧ (s.handlers i).request.Id = id)
  | _ => false

/-- Run a schedule in which no step registers `id`; `none` when a step cannot be
taken or registers `id`. -/
def runAvoiding (id : Int) : List Label → State → Option State
  | [], s => some s
  | l :: tr, s => if registersId id l s then none else (next l s).bind (runAvoiding id tr)

/-- What one looks at in a state when following handler run `i`, call `j` and the
table entry of `id`. -/
structure View where
  pc : HandlerPc
  Id : Int
  responseChannel : Option Chan
  w : ResponseWriter
  call : Responder
  entry : Option Chan
  requestId : Int
  deriving DecidableEq, Repr

/-- The view of handler run `i`, call `j` and the table entry of `id` in a state. -/
def State.view (s : State) (i j : Nat) (id : Int) : View :=
  { pc := (s.handlers i).pc, Id := (s.handlers i).request.Id,
    responseChannel := (s.handlers i).responseChannel, w := (s.handlers i).w,
    call := s.responders j, entry := s.serverRequests id, requestId := s.requestId }

/-! ## Sample inputs -/

/-- A `Bindings` with port 8080. -/
def b8080 : Bindings := ⟨⟨8080, false⟩⟩

/-- A `Bindings` with port 9090. -/
def b9090 : Bindings := ⟨⟨9090, false⟩⟩

/-- The request of the round-trip example: `POST /path?q=1` with `X-Test: 1` and
body `hello`. -/
def reqPost : Request := ⟨"POST", "host", "/path?q=1", [("X-Test", ["1"])], some "hello"⟩

/-- A plain `GET /`. -/
def reqGet : Request := ⟨"GET", "host", "/", [], some ""⟩

/-- A plain `HEAD /`. -/
def reqHead : Request := ⟨"HEAD", "host", "/", [], some ""⟩

/-! ## Invariants -/

/-- Invariant relating the table, the log of removed channels and the channel
counter: channels in either are below the counter, no channel in the table was
removed before, no channel was removed twice, and no channel is stored under two
keys. -/
structure LogInv (t : Table) (removed : List Chan) (n : Nat) : Prop where
  tableFresh : ∀ k c, t k = some c → c < n
  removedFresh : ∀ c ∈ removed, c < n
  notRemoved : ∀ k c, t k = some c → c ∉ removed
  nodup : removed.Nodup
  injective : ∀ k k2 c, t k = some c → t k2 = some c → k = k2

/-- `LogInv` read on a state. -/
def State.LogInv (s : State) : Prop := Sage.LogInv s.serverRequests s.removed s.nextChan

/-- Invariant: the channel a call stands sending on was taken out of the table by a
`delete`. -/
def State.SendInv (s : State) : Prop :=
  ∀ j c response, s.responders j = .sending c response → c ∈ s.removed

/-- A run that has a channel got it from the `make` counter `n` and is at or past
its `select`; when it has panicked there (in the response branch), its channel is
among the removed ones `removed`. -/
def Handler.Owned (removed : List Chan) (n : Nat) (x : Handler) : Prop :=
  ∀ c, x.responseChannel = some c →
    c < n ∧ (x.pc = .select ∨ x.pc = .cleanup ∨ x.pc = .done ∨
      (x.pc = .panicked ∧ c ∈ removed))

/-- Invariant on the locals of the handler runs: a run has a channel only once it
is at or past its `select`; every entry of the table was stored by a run under its
own `request.Id`; until its `select` is over a run has called nothing on its
writer, and before the header loop its `request.Headers` is empty. -/
structure HandlerInv (s : State) : Prop where
  owned : ∀ i, (s.handlers i).Owned s.removed s.nextChan
  registered : ∀ k c, s.serverRequests k = some c →
    ∃ i, (s.handlers i).responseChannel = some c ∧ (s.handlers i).request.Id = k
  early : ∀ i, (s.handlers i).pc = .increment ∨ (s.handlers i).pc = .store ∨
      (s.handlers i).pc = .register →
    (s.handlers i).request.Headers = [] ∧
      (s.handlers i).w = ResponseWriter.new (s.handlers i).r.Method
  waiting : ∀ i, (s.handlers i).pc = .select →
    (s.handlers i).w = ResponseWriter.new (s.handlers i).r.Method

/-- The handler run a step belongs to. -/
def Label.handler : Label → Option Nat
  | .serverNew _ => none
  | .accept i _ => some i
  | .incLoad i => some i
  | .incStore i => some i
  | .register i => some i
  | .marshalError i => some i
  | .receive i _ => some i
  | .timeout i => some i
  | .cleanup i => some i
  | .respond _ _ _ _ _ => none

/-- Call `j` stands sending `response` on channel `c`, which was made earlier, and
no handler run waits on `c` in its `select`. -/
structure Stuck (c : Chan) (j : Nat) (response : serverResponse) (s : State) : Prop where
  call : s.responders j = .sending c response
  made : c < s.nextChan
  noReceiver : ∀ i, (s.handlers i).pc = .select → (s.handlers i).responseChannel ≠ some c

/-! ## Sample schedules -/

/-- One request that is registered and then times out; its handler has not yet run
its final `delete`. -/
def traceTimedOut : List Label :=
  [.serverNew b8080, .accept 0 reqGet, .incLoad 0, .incStore 0, .register 0, .timeout 0]

/-- The state at the end of `traceTimedOut`. -/
def stTimedOut : State := (run traceTimedOut initState).getD initState

/-- One request that is registered and waits in its `select`. -/
def tracePending : List Label :=
  [.serverNew b8080, .accept 0 reqPost, .incLoad 0, .incStore 0, .register 0]

/-- The state at the end of `tracePending`. -/
def stPending : State := (run tracePending initState).getD initState

/-- One request that has passed `requestId++` and stands before the header loop. -/
def traceAtRegister : List Label :=
  [.serverNew b8080, .accept 0 reqPost, .incLoad 0, .incStore 0]

/-- The state at the end of `traceAtRegister`. -/
def stAtRegister : State := (run traceAtRegister initState).getD initState

/-- Requests A (run 0, id 0) and B (run 1, id 1), issued in this order, both
waiting. -/
def traceTwoPending : List Label :=
  [.serverNew b8080, .accept 0 reqGet, .incLoad 0, .incStore 0, .register 0,
   .accept 1 reqPost, .incLoad 1, .incStore 1, .register 1]

/-- The state at the end of `traceTwoPending`. -/
def stTwoPending : State := (run traceTwoPending initState).getD initState

/-- The state after `ServerRespond(0, 201, {"X-Reply": "ok"}, "world")` was
called in `stPending`. -/
def stFirstCall : State :=
  (next (.respond 0 0 201 [("X-Reply", "ok")] "world") stPending).getD initState

/-- The state after the handler of request 0 has then received the record and
returned. -/
def stAnswered : State :=
  (runAvoiding 0 [.receive 0 0, .cleanup 0] stFirstCall).getD initState

/-- The state after `ServerRespond(1, 200, {}, "b")` was called in `stTwoPending`:
the entry of B is taken, A is still in the table. -/
def stBTaken : State := (next (.respond 0 1 200 [] "b") stTwoPending).getD initState

/-- The state after `ServerRespond(0, 200, {}, "")` was called in `stTimedOut`. -/
def stBlocked : State := (next (.respond 0 0 200 [] "") stTimedOut).getD initState

/-- A property of every entry of a family still holds after one entry is replaced by
a value that has it. -/
theorem update_forall (P : Handler → Prop) (f : Nat → Handler) (i : Nat) (a : Handler)
    (hf : ∀ k, P (f k)) (ha : P a) : ∀ k, P (Function.update f i a k) := by
  intro k
  rw [Function.update_apply]
  split_ifs
  · exact ha
  · exact hf k

/-- A property kept by every step holds along every schedule. -/
theorem run_preserves (P : State → Prop)
    (hstep : ∀ l s s1, P s → next l s = some s1 → P s1) :
    ∀ tr s s1, P s → run tr s = some s1 → P s1 := by
  intro tr
  induction tr with
  | nil => intro s s1 hs h; simp only [run, Option.some.injEq] at h; exact h ▸ hs
  | cons l tr ih =>
    intro s s1 hs h
    simp only [run] at h
    cases hn : next l s with
    | none => simp [hn] at h
    | some s2 =>
      rw [hn] at h
      exact ih s2 s1 (hstep l s s2 hs hn) h

/-- The two outcomes of lines 27-42. -/
theorem handlerBegin_cases (n : Int) (r : Request) :
    ((handlerBegin n r).pc = .done ∧ (handlerBegin n r).responseChannel = none) ∨
      ((handlerBegin n r).pc = .increment ∧ (handlerBegin n r).request.Id = n ∧
        (handlerBegin n r).request.Headers = [] ∧ (handlerBegin n r).r = r ∧
        (handlerBegin n r).w = ResponseWriter.new r.Method ∧
        (handlerBegin n r).responseChannel = none) := by
  unfold handlerBegin
  cases r.Body <;>
    simp [Handler.after, ResponseWriter.WriteHeader, ResponseWriter.new]

/-! ## The counter bounds the keys while no update is lost -/

/-- A locked `delete` keeps `LogInv`, whichever key it is given. -/
theorem logInv_delete {t : Table} {removed : List Chan} {n : Nat} (inv : LogInv t removed n)
    (key : Int) :
    LogInv (t.delete key)
      (match t key with
        | some c => c :: removed
        | none => removed) n := by
  obtain ⟨h1, h2, h3, h4, h5⟩ := inv
  have hdel : ∀ k c, t.delete key k = some c → k ≠ key ∧ t k = some c := by
    intro k c
    simp only [Table.delete]
    split_ifs with hk
    · simp
    · exact fun hc => ⟨hk, hc⟩
  cases hkey : t key with
  | none =>
    exact ⟨fun k c hc => h1 k c (hdel k c hc).2, h2, fun k c hc => h3 k c (hdel k c hc).2, h4,
      fun k k2 c hc hc2 => h5 k k2 c (hdel k c hc).2 (hdel k2 c hc2).2⟩
  | some c0 =>
    refine ⟨fun k c hc => h1 k c (hdel k c hc).2, ?_, ?_, ?_,
      fun k k2 c hc hc2 => h5 k k2 c (hdel k c hc).2 (hdel k2 c hc2).2⟩
    · intro c hc
      rcases List.mem_cons.mp hc with rfl | hc
      · exact h1 key c hkey
      · exact h2 c hc
    · intro k c hc hmem
      obtain ⟨hk, hc⟩ := hdel k c hc
      rcases List.mem_cons.mp hmem with rfl | hmem
      · exact hk (h5 k key c hc hkey)
      · exact h3 k c hc hmem
    · exact List.nodup_cons.mpr ⟨h3 key c0 hkey, h4⟩

/-- The insert of a channel just made keeps `LogInv`. -/
theorem logInv_insert {t : Table} {removed : List Chan} {n : Nat} (inv : LogInv t removed n)
    (key : Int) : LogInv (t.insert key n) removed (n + 1) := by
  obtain ⟨h1, h2, h3, h4, h5⟩ := inv
  have hins : ∀ k c, t.insert key n k = some c → (k = key ∧ c = n) ∨ (k ≠ key ∧ t k = some c) := by
    intro k c
    simp only [Table.insert]
    split_ifs with hk
    · intro hc; left; exact ⟨hk, (Option.some.inj hc).symm⟩
    · intro hc; right; exact ⟨hk, hc⟩
  refine ⟨?_, fun c hc => Nat.lt_succ_of_lt (h2 c hc), ?_, h4, ?_⟩
  · intro k c hc
    rcases hins k c hc with ⟨_, rfl⟩ | ⟨_, hc⟩
    · exact Nat.lt_succ_self _
    · exact Nat.lt_succ_of_lt (h1 k c hc)
  · intro k c hc hmem
    rcases hins k c hc with ⟨_, rfl⟩ | ⟨_, hc⟩
    · exact Nat.lt_irrefl _ (h2 _ hmem)
    · exact h3 k c hc hmem
  · intro k k2 c hc hc2
    rcases hins k c hc with ⟨hk, hcn⟩ | ⟨_, hc⟩
    · rcases hins k2 c hc2 with ⟨hk2, _⟩ | ⟨_, hc2⟩
      · rw [hk, hk2]
      · exact absurd (hcn ▸ h1 k2 c hc2) (Nat.lt_irrefl _)
    · rcases hins k2 c hc2 with ⟨_, hcn⟩ | ⟨_, hc2⟩
      · exact absurd (hcn ▸ h1 k c hc) (Nat.lt_irrefl _)
      · exact h5 k k2 c hc hc2

theorem logInv_initState : initState.LogInv :=
  ⟨fun k c h => by simp [Sage.initState] at h, fun c h => by simp [Sage.initState] at h,
   fun k c h => by simp [Sage.initState] at h, List.nodup_nil,
   fun k k2 c h => by simp [Sage.initState] at h⟩

theorem logInv_step (l : Label) (s s1 : State) (inv : s.LogInv)
    (h : next l s = some s1) : s1.LogInv := by
  cases l with
  | serverNew b =>
    simp only [next, ServerNew, Option.some.injEq] at h
    subst h
    cases hs : s.server <;> exact inv
  | accept i r =>
    simp only [next] at h
    split_ifs at h with hg
    cases h
    exact inv
  | incLoad i =>
    simp only [next] at h
    split_ifs at h with hg
    cases h
    exact inv
  | incStore i =>
    simp only [next] at h
    split_ifs at h with hg
    cases h
    exact inv
  | register i =>
    simp only [next] at h
    split_ifs at h with hg
    split at h
    · cases h; exact inv
    · cases h; exact logInv_insert inv _
  | marshalError i =>
    simp only [next] at h
    split_ifs at h with hg
    split at h <;> cases h <;> exact inv
  | receive i j =>
    simp only [next] at h
    split at h
    · split_ifs at h with hg
      cases h
      exact inv
    · simp at h
  | timeout i =>
    simp only [next] at h
    split_ifs at h with hg
    cases h
    exact inv
  | cleanup i =>
    simp only [next] at h
    split_ifs at h with hg
    cases h
    exact logInv_delete inv _
  | respond j requestId statusCode headers body =>
    simp only [next] at h
    split_ifs at h with hg
    cases h
    have hd := logInv_delete inv requestId
    unfold State.LogInv
    simp only [ServerRespond]
    cases hk : s.serverRequests requestId with
    | none => exact inv
    | some c => simpa only [hk] using hd

theorem logInv_reachable {s : State} (hs : Reachable s) : s.LogInv := by
  obtain ⟨tr, h⟩ := hs
  exact run_preserves State.LogInv logInv_step tr _ _ logInv_initState h

/-! ## A record is sent only on a removed entry -/

theorem sendInv_initState : initState.SendInv :=
  fun j c response h => by simp [Sage.initState] at h

theorem sendInv_step (l : Label) (s s1 : State) (inv : s.SendInv)
    (h : next l s = some s1) : s1.SendInv := by
  cases l with
  | serverNew b =>
    simp only [next, ServerNew, Option.some.injEq] at h
    subst h
    cases hs : s.server <;> exact inv
  | accept i r =>
    simp only [next] at h
    split_ifs at h with hg
    cases h
    exact inv
  | incLoad i =>
    simp only [next] at h
    split_ifs at h with hg
    cases h
    exact inv
  | incStore i =>
    simp only [next] at h
    split_ifs at h with hg
    cases h
    exact inv
  | register i =>
    simp only [next] at h
    split_ifs at h with hg
    split at h <;> cases h <;> exact inv
  | marshalError i =>
    simp only [next] at h
    split_ifs at h with hg
    split at h <;> cases h <;> exact inv
  | receive i j =>
    simp only [next] at h
    split at h
    · split_ifs at h with hg
      cases h
      intro j2 c response
      simp only [State.setHandler, Function.update_apply]
      split_ifs with hj
      · simp
      · exact inv j2 c response
    · simp at h
  | timeout i =>
    simp only [next] at h
    split_ifs at h with hg
    cases h
    exact inv
  | cleanup i =>
    simp only [next] at h
    split_ifs at h with hg
    cases h
    intro j2 c response hsend
    have hmem := inv j2 c response hsend
    simp only []
    split
    · exact List.mem_cons_of_mem _ hmem
    · exact hmem
  | respond j requestId statusCode headers body =>
    simp only [next] at h
    split_ifs at h with hg
    cases h
    intro j2 c response
    simp only [Function.update_apply, ServerRespond]
    split_ifs with hj
    · cases hk : s.serverRequests requestId with
      | none => simp
      | some c0 =>
        simp only [Responder.sending.injEq, List.mem_cons]
        exact fun e => Or.inl e.1.symm
    · intro hsend
      have hmem := inv j2 c response hsend
      split
      · exact List.mem_cons_of_mem _ hmem
      · exact hmem

theorem sendInv_reachable {s : State} (hs : Reachable s) : s.SendInv := by
  obtain ⟨tr, h⟩ := hs
  exact run_preserves State.SendInv sendInv_step tr _ _ sendInv_initState h

/-! ## Who owns the channels in the table -/

/-- A run that has some property is still there after one run is replaced, when the
replacement keeps the property. -/
theorem exists_update (Q : Handler → Prop) (f : Nat → Handler) (i : Nat) (a : Handler)
    (hex : ∃ i0, Q (f i0)) (hkeep : Q (f i) → Q a) : ∃ i0, Q (Function.update f i a i0) := by
  obtain ⟨i0, h0⟩ := hex
  by_cases hi : i0 = i
  · exact ⟨i, by rw [Function.update_same]; exact hkeep (hi ▸ h0)⟩
  · exact ⟨i0, by rw [Function.update_noteq hi]; exact h0⟩

/-- A run without a channel owns nothing. -/
theorem owned_of_none (removed : List Chan) (n : Nat) (x : Handler)
    (h : x.responseChannel = none) : x.Owned removed n := by
  intro c hc
  rw [h] at hc
  cases hc

/-- `Owned` survives more removals and more channels made. -/
theorem owned_mono {removed removed2 : List Chan} {n n2 : Nat} {x : Handler}
    (h : x.Owned removed n) (hr : ∀ c ∈ removed, c ∈ removed2) (hn : n ≤ n2) :
    x.Owned removed2 n2 := by
  intro c hc
  obtain ⟨h1, h2⟩ := h c hc
  refine ⟨Nat.lt_of_lt_of_le h1 hn, ?_⟩
  rcases h2 with h2 | h2 | h2 | h2
  · exact Or.inl h2
  · exact Or.inr (Or.inl h2)
  · exact Or.inr (Or.inr (Or.inl h2))
  · exact Or.inr (Or.inr (Or.inr ⟨h2.1, hr c h2.2⟩))

/-- `WriteHeader(502)` on a writer on which nothing was called does not panic. -/
theorem writeHeader_new (reqMethod : String) (code : Int) (h1 : 200 ≤ code) (h2 : code ≤ 999) :
    (ResponseWriter.new reqMethod).WriteHeader code =
      some ((ResponseWriter.new reqMethod).writeStatus code) := by
  have e1 : ¬ (code < 100 ∨ code > 999) := by omega
  have e2 : ¬ (code ≤ 199 ∧ code ≠ 101) := by omega
  simp only [ResponseWriter.WriteHeader, ResponseWriter.new, e1, e2, if_false]

theorem handlerInv_initState : HandlerInv initState :=
  ⟨fun i c h => by simp [Sage.initState, Handler.idle] at h,
   fun k c h => by simp [Sage.initState] at h,
   fun i h => by simp [Sage.initState, Handler.idle] at h,
   fun i h => by simp [Sage.initState, Handler.idle] at h⟩

theorem handlerInv_step (l : Label) (s s1 : State) (inv : HandlerInv s) (sinv : s.SendInv)
    (h : next l s = some s1) : HandlerInv s1 := by
  obtain ⟨h1, h2, h3, h4⟩ := inv
  have noChan : ∀ i, (s.handlers i).pc = .idle ∨ (s.handlers i).pc = .increment ∨
      (s.handlers i).pc = .store ∨ (s.handlers i).pc = .register →
      (s.handlers i).responseChannel = none := by
    intro i hi
    cases hc : (s.handlers i).responseChannel with
    | none => rfl
    | some c =>
      have := (h1 i c hc).2
      rcases hi with hi | hi | hi | hi <;> simp [hi] at this
  cases l with
  | serverNew b =>
    simp only [next, ServerNew, Option.some.injEq] at h
    subst h
    cases hs : s.server <;> exact ⟨h1, h2, h3, h4⟩
  | accept i r =>
    simp only [next] at h
    split_ifs at h with hg
    cases h
    have hp := handlerBegin_cases s.requestId r
    have hnone : (handlerBegin s.requestId r).responseChannel = none := by
      rcases hp with hp | hp <;> simp [hp]
    refine ⟨?_, ?_, ?_, ?_⟩
    · exact update_forall (fun x => x.Owned s.removed s.nextChan) _ _ _ h1
        (owned_of_none _ _ _ hnone)
    · intro k c hk
      exact exists_update (fun x => x.responseChannel = some c ∧ x.request.Id = k) _ _ _
        (h2 k c hk) (by simp [noChan i (Or.inl hg.2)])
    · exact update_forall (fun x => x.pc = .increment ∨ x.pc = .store ∨ x.pc = .register →
        x.request.Headers = [] ∧ x.w = ResponseWriter.new x.r.Method) _ _ _ h3
        (by rcases hp with hp | hp <;> simp [hp])
    · exact update_forall (fun x => x.pc = .select → x.w = ResponseWriter.new x.r.Method)
        _ _ _ h4 (by rcases hp with hp | hp <;> simp [hp])
  | incLoad i =>
    simp only [next] at h
    split_ifs at h with hg
    cases h
    have hnone := noChan i (Or.inr (Or.inl hg))
    refine ⟨?_, ?_, ?_, ?_⟩
    · exact update_forall (fun x => x.Owned s.removed s.nextChan) _ _ _ h1
        (owned_of_none _ _ _ hnone)
    · intro k c hk
      exact exists_update (fun x => x.responseChannel = some c ∧ x.request.Id = k) _ _ _
        (h2 k c hk) (by simp [hnone])
    · exact update_forall (fun x => x.pc = .increment ∨ x.pc = .store ∨ x.pc = .register →
        x.request.Headers = [] ∧ x.w = ResponseWriter.new x.r.Method) _ _ _ h3
        (fun _ => h3 i (Or.inl hg))
    · exact update_forall (fun x => x.pc = .select → x.w = ResponseWriter.new x.r.Method)
        _ _ _ h4 (by simp)
  | incStore i =>
    simp only [next] at h
    split_ifs at h with hg
    cases h
    have hnone := noChan i (Or.inr (Or.inr (Or.inl hg)))
    refine ⟨?_, ?_, ?_, ?_⟩
    · exact update_forall (fun x => x.Owned s.removed s.nextChan) _ _ _ h1
        (owned_of_none _ _ _ hnone)
    · intro k c hk
      exact exists_update (fun x => x.responseChannel = some c ∧ x.request.Id = k) _ _ _
        (h2 k c hk) (by simp [hnone])
    · exact update_forall (fun x => x.pc = .increment ∨ x.pc = .store ∨ x.pc = .register →
        x.request.Headers = [] ∧ x.w = ResponseWriter.new x.r.Method) _ _ _ h3
        (fun _ => h3 i (Or.inr (Or.inl hg)))
    · exact update_forall (fun x => x.pc = .select → x.w = ResponseWriter.new x.r.Method)
        _ _ _ h4 (by simp)
  | register i =>
    simp only [next] at h
    split_ifs at h with hg
    have hnone := noChan i (Or.inr (Or.inr (Or.inr hg)))
    split at h
    · cases h
      refine ⟨?_, ?_, ?_, ?_⟩
      · exact update_forall (fun x => x.Owned s.removed s.nextChan) _ _ _ h1
          (owned_of_none _ _ _ hnone)
      · intro k c hk
        exact exists_update (fun x => x.responseChannel = some c ∧ x.request.Id = k) _ _ _
          (h2 k c hk) (by simp [hnone])
      · exact update_forall (fun x => x.pc = .increment ∨ x.pc = .store ∨ x.pc = .register →
          x.request.Headers = [] ∧ x.w = ResponseWriter.new x.r.Method) _ _ _ h3 (by simp)
      · exact update_forall (fun x => x.pc = .select → x.w = ResponseWriter.new x.r.Method)
          _ _ _ h4 (by simp)
    · cases h
      refine ⟨?_, ?_, ?_, ?_⟩
      · exact update_forall (fun x => x.Owned s.removed (s.nextChan + 1)) _ _ _
          (fun k => owned_mono (h1 k) (fun _ hc => hc) (Nat.le_succ _))
          (by
            intro c hc
            simp only [Option.some.injEq] at hc
            subst hc
            exact ⟨Nat.lt_succ_self _, Or.inl rfl⟩)
      · intro k c
        simp only [Table.insert]
        split_ifs with hk
        · intro hc
          simp only [Option.some.injEq] at hc
          exact ⟨i, by simp [State.setHandler, hc, hk]⟩
        · intro hc
          exact exists_update (fun x => x.responseChannel = some c ∧ x.request.Id = k) _ _ _
            (h2 k c hc) (by simp [hnone])
      · exact update_forall (fun x => x.pc = .increment ∨ x.pc = .store ∨ x.pc = .register →
          x.request.Headers = [] ∧ x.w = ResponseWriter.new x.r.Method) _ _ _ h3 (by simp)
      · exact update_forall (fun x => x.pc = .select → x.w = ResponseWriter.new x.r.Method)
          _ _ _ h4 (fun _ => (h3 i (Or.inr (Or.inr hg))).2)
  | marshalError i =>
    simp only [next] at h
    split_ifs at h with hg
    have hnone := noChan i (Or.inr (Or.inr (Or.inr hg)))
    split at h <;> cases h
    all_goals
      refine ⟨?_, ?_, ?_, ?_⟩
      · exact update_forall (fun x => x.Owned s.removed s.nextChan) _ _ _ h1
          (owned_of_none _ _ _
            (by first | exact hnone | (unfold Handler.after; split <;> exact hnone)))
      · intro k c hk
        exact exists_update (fun x => x.responseChannel = some c ∧ x.request.Id = k) _ _ _
          (h2 k c hk) (by simp [hnone])
      · exact update_forall (fun x => x.pc = .increment ∨ x.pc = .store ∨ x.pc = .register →
          x.request.Headers = [] ∧ x.w = ResponseWriter.new x.r.Method) _ _ _ h3
          (by first | (simp; done) | (unfold Handler.after; split <;> simp))
      · exact update_forall (fun x => x.pc = .select → x.w = ResponseWriter.new x.r.Method)
          _ _ _ h4 (by first | (simp; done) | (unfold Handler.after; split <;> simp))
  | receive i j =>
    simp only [next] at h
    split at h
    · rename_i c0 response hsend
      split_ifs at h with hg
      cases h
      refine ⟨?_, ?_, ?_, ?_⟩
      · exact update_forall (fun x => x.Owned s.removed s.nextChan) _ _ _ h1
          (by
            unfold Handler.after
            split
            · exact fun c hc => ⟨(h1 i c hc).1, Or.inr (Or.inl rfl)⟩
            · intro c hc
              refine ⟨(h1 i c hc).1, Or.inr (Or.inr (Or.inr ⟨rfl, ?_⟩))⟩
              have hc0 : (s.handlers i).responseChannel = some c := hc
              rw [hg.2] at hc0
              cases hc0
              exact sinv j c0 response hsend)
      · intro k c hk
        exact exists_update (fun x => x.responseChannel = some c ∧ x.request.Id = k) _ _ _
          (h2 k c hk) (by unfold Handler.after; split <;> exact fun hq => hq)
      · exact update_forall (fun x => x.pc = .increment ∨ x.pc = .store ∨ x.pc = .register →
          x.request.Headers = [] ∧ x.w = ResponseWriter.new x.r.Method) _ _ _ h3
          (by unfold Handler.after; split <;> simp)
      · exact update_forall (fun x => x.pc = .select → x.w = ResponseWriter.new x.r.Method)
          _ _ _ h4 (by unfold Handler.after; split <;> simp)
    · simp at h
  | timeout i =>
    simp only [next] at h
    split_ifs at h with hg
    cases h
    rw [h4 i hg, writeHeader_new _ 502 (by decide) (by decide)]
    refine ⟨?_, ?_, ?_, ?_⟩
    · exact update_forall (fun x => x.Owned s.removed s.nextChan) _ _ _ h1
        (fun c hc => ⟨(h1 i c hc).1, Or.inr (Or.inl rfl)⟩)
    · intro k c hk
      exact exists_update (fun x => x.responseChannel = some c ∧ x.request.Id = k) _ _ _
        (h2 k c hk) (fun hq => hq)
    · exact update_forall (fun x => x.pc = .increment ∨ x.pc = .store ∨ x.pc = .register →
        x.request.Headers = [] ∧ x.w = ResponseWriter.new x.r.Method) _ _ _ h3
        (by simp [Handler.after])
    · exact update_forall (fun x => x.pc = .select → x.w = ResponseWriter.new x.r.Method)
        _ _ _ h4 (by simp [Handler.after])
  | cleanup i =>
    simp only [next] at h
    split_ifs at h with hg
    cases h
    have hsub : ∀ c ∈ s.removed, c ∈ (match s.serverRequests s.requestId with
        | some c0 => c0 :: s.removed
        | none => s.removed) := by
      intro c hc
      split
      · exact List.mem_cons_of_mem _ hc
      · exact hc
    refine ⟨?_, ?_, ?_, ?_⟩
    · exact update_forall (fun x => x.Owned _ s.nextChan) _ _ _
        (fun k => owned_mono (h1 k) hsub (Nat.le_refl _))
        (owned_mono (x := { s.handlers i with pc := .done })
          (fun c hc => ⟨(h1 i c hc).1, Or.inr (Or.inr (Or.inl rfl))⟩) hsub (Nat.le_refl _))
    · intro k c
      simp only [Table.delete]
      split_ifs with hk
      · simp
      · intro hc
        exact exists_update (fun x => x.responseChannel = some c ∧ x.request.Id = k) _ _ _
          (h2 k c hc) (fun hq => hq)
    · exact update_forall (fun x => x.pc = .increment ∨ x.pc = .store ∨ x.pc = .register →
        x.request.Headers = [] ∧ x.w = ResponseWriter.new x.r.Method) _ _ _ h3 (by simp)
    · exact update_forall (fun x => x.pc = .select → x.w = ResponseWriter.new x.r.Method)
        _ _ _ h4 (by simp)
  | respond j requestId statusCode headers body =>
    simp only [next] at h
    split_ifs at h with hg
    cases h
    have hsub : ∀ c ∈ s.removed, c ∈ (match s.serverRequests requestId with
        | some c0 => c0 :: s.removed
        | none => s.removed) := by
      intro c hc
      split
      · exact List.mem_cons_of_mem _ hc
      · exact hc
    refine ⟨fun k => owned_mono (h1 k) hsub (Nat.le_refl _), ?_, h3, h4⟩
    intro k c
    simp only [ServerRespond]
    split
    · simp only [Table.delete]
      split_ifs with hk
      · simp
      · exact h2 k c
    · exact h2 k c

theorem handlerInv_reachable {s : State} (hs : Reachable s) : HandlerInv s := by
  obtain ⟨tr, h⟩ := hs
  exact (run_preserves (fun x => x.SendInv ∧ HandlerInv x)
    (fun l x x1 hx hn => ⟨sendInv_step l x x1 hx.1 hn, handlerInv_step l x x1 hx.2 hx.1 hn⟩)
    tr _ _ ⟨sendInv_initState, handlerInv_initState⟩ h).2

/-! ## Maps that are iterated -/

theorem mapGet_mapSet_same {V : Type} (m : StrMap V) (k : String) (v : V) :
    mapGet (mapSet m k v) k = some v := by
  induction m with
  | nil => simp [mapSet, mapGet]
  | cons e rest ih =>
    obtain ⟨k0, v0⟩ := e
    simp only [mapSet]
    split_ifs with hk
    · simp [mapGet]
    · simp [mapGet, hk, ih]

theorem mapGet_mapSet_other {V : Type} (m : StrMap V) (k k2 : String) (v : V) (h : k2 ≠ k) :
    mapGet (mapSet m k v) k2 = mapGet m k2 := by
  induction m with
  | nil => simp [mapSet, mapGet, Ne.symm h]
  | cons e rest ih =>
    obtain ⟨k0, v0⟩ := e
    simp only [mapSet]
    split_ifs with hk
    · subst hk
      simp [mapGet, Ne.symm h]
    · simp only [mapGet, ih]

theorem mem_mapKeys_mapSet {V : Type} (m : StrMap V) (k : String) (v : V) (x : String) :
    x ∈ mapKeys (mapSet m k v) ↔ x = k ∨ x ∈ mapKeys m := by
  induction m with
  | nil => simp [mapSet, mapKeys]
  | cons e rest ih =>
    obtain ⟨k0, v0⟩ := e
    simp only [mapSet]
    split_ifs with hk
    · subst hk
      simp [mapKeys]
    · simp only [mapKeys, List.map_cons, List.mem_cons] at ih ⊢
      rw [ih]
      tauto

/-- The header loop of lines 44-46, started on any headers `acc`: when every name
has a value it ends, the names of the result are those of `h` and of `acc`, names
outside `h` keep their value, and each name of `h` gets the first value of its
list. -/
theorem flattenHeaders_spec (h : StrMap (List String)) :
    ∀ acc : StrMap String, (∀ kv ∈ h, kv.2 ≠ []) →
      ∃ m, flattenHeaders h acc = some m ∧
        (∀ x, x ∈ mapKeys m ↔ x ∈ mapKeys h ∨ x ∈ mapKeys acc) ∧
        (∀ x, x ∉ mapKeys h → mapGet m x = mapGet acc x) ∧
        ((mapKeys h).Nodup → ∀ k vs, (k, vs) ∈ h → mapGet m k = vs.head?) := by
  induction h with
  | nil =>
    intro acc _
    exact ⟨acc, rfl, by simp [mapKeys], fun _ _ => rfl, fun _ k vs hm => by simp at hm⟩
  | cons e rest ih =>
    obtain ⟨key, value⟩ := e
    intro acc hne
    cases value with
    | nil => exact absurd rfl (hne (key, []) (List.mem_cons_self _ _))
    | cons v0 tl =>
      obtain ⟨m, hm, hkeys, hout, hin⟩ :=
        ih (mapSet acc key v0) (fun kv hkv => hne kv (List.mem_cons_of_mem _ hkv))
      refine ⟨m, by simp only [flattenHeaders, hm], ?_, ?_, ?_⟩
      · intro x
        rw [hkeys x, mem_mapKeys_mapSet]
        simp only [mapKeys, List.map_cons, List.mem_cons]
        tauto
      · intro x hx
        simp only [mapKeys, List.map_cons, List.mem_cons, not_or] at hx
        rw [hout x hx.2, mapGet_mapSet_other _ _ _ _ hx.1]
      · intro hnd k vs hmem
        simp only [mapKeys, List.map_cons, List.nodup_cons] at hnd
        rcases List.mem_cons.mp hmem with heq | hmem
        · simp only [Prod.mk.injEq] at heq
          obtain ⟨rfl, rfl⟩ := heq
          rw [hout k hnd.1, mapGet_mapSet_same]
          rfl
        · exact hin hnd.2 k vs hmem

/-- A step that does not register `id` leaves `id` absent from the table. -/
theorem next_absent (id : Int) (l : Label) (s s1 : State) (h : next l s = some s1)
    (hreg : registersId id l s = false) (habs : s.serverRequests id = none) :
    s1.serverRequests id = none := by
  cases l with
  | serverNew b =>
    simp only [next, ServerNew, Option.some.injEq] at h
    subst h
    cases hs : s.server <;> exact habs
  | accept i r =>
    simp only [next] at h
    split_ifs at h with hg
    cases h
    exact habs
  | incLoad i =>
    simp only [next] at h
    split_ifs at h with hg
    cases h
    exact habs
  | incStore i =>
    simp only [next] at h
    split_ifs at h with hg
    cases h
    exact habs
  | register i =>
    simp only [next] at h
    split_ifs at h with hg
    split at h
    · cases h; exact habs
    · cases h
      simp only [registersId, hg, true_and, decide_eq_false_iff_not] at hreg
      simp only [Table.insert]
      split_ifs with hk
      · exact absurd hk.symm hreg
      · exact habs
  | marshalError i =>
    simp only [next] at h
    split_ifs at h with hg
    split at h <;> cases h <;> exact habs
  | receive i j =>
    simp only [next] at h
    split at h
    · split_ifs at h with hg
      cases h
      exact habs
    · simp at h
  | timeout i =>
    simp only [next] at h
    split_ifs at h with hg
    cases h
    exact habs
  | cleanup i =>
    simp only [next] at h
    split_ifs at h with hg
    cases h
    simp only [Table.delete]
    split_ifs
    · rfl
    · exact habs
  | respond j requestId statusCode headers body =>
    simp only [next] at h
    split_ifs at h with hg
    cases h
    simp only [ServerRespond]
    split
    · simp only [Table.delete]
      split_ifs
      · rfl
      · exact habs
    · exact habs

/-- Along a schedule in which no step registers `id`, `id` stays absent from the
table. -/
theorem runAvoiding_absent (id : Int) :
    ∀ (tr : List Label) (s s1 : State), runAvoiding id tr s = some s1 →
      s.serverRequests id = none → s1.serverRequests id = none := by
  intro tr
  induction tr with
  | nil =>
    intro s s1 h habs
    simp only [runAvoiding, Option.some.injEq] at h
    exact h ▸ habs
  | cons l tr ih =>
    intro s s1 h habs
    simp only [runAvoiding] at h
    cases hreg : registersId id l s with
    | true => simp [hreg] at h
    | false =>
      simp only [hreg] at h
      cases hn : next l s with
      | none => simp [hn] at h
      | some s2 =>
        rw [hn] at h
        exact ih s2 s1 h (next_absent id l s s2 hn hreg habs)

/-! ## A send nobody can receive -/

/-- A step changes the locals of no run but its own. -/
theorem next_handlers_frame (k : Nat) (l : Label) (s s1 : State) (h : next l s = some s1)
    (hk : l.handler ≠ some k) : s1.handlers k = s.handlers k := by
  cases l with
  | serverNew b =>
    simp only [next, ServerNew, Option.some.injEq] at h
    subst h
    cases hs : s.server <;> rfl
  | accept i r =>
    simp only [next] at h
    split_ifs at h with hg
    cases h
    exact Function.update_noteq (fun e => hk (by rw [e]; rfl)) _ _
  | incLoad i =>
    simp only [next] at h
    split_ifs at h with hg
    cases h
    exact Function.update_noteq (fun e => hk (by rw [e]; rfl)) _ _
  | incStore i =>
    simp only [next] at h
    split_ifs at h with hg
    cases h
    exact Function.update_noteq (fun e => hk (by rw [e]; rfl)) _ _
  | register i =>
    simp only [next] at h
    split_ifs at h with hg
    split at h <;> cases h <;> exact Function.update_noteq (fun e => hk (by rw [e]; rfl)) _ _
  | marshalError i =>
    simp only [next] at h
    split_ifs at h with hg
    split at h <;> cases h <;> exact Function.update_noteq (fun e => hk (by rw [e]; rfl)) _ _
  | receive i j =>
    simp only [next] at h
    split at h
    · split_ifs at h with hg
      cases h
      exact Function.update_noteq (fun e => hk (by rw [e]; rfl)) _ _
    · simp at h
  | timeout i =>
    simp only [next] at h
    split_ifs at h with hg
    cases h
    exact Function.update_noteq (fun e => hk (by rw [e]; rfl)) _ _
  | cleanup i =>
    simp only [next] at h
    split_ifs at h with hg
    cases h
    exact Function.update_noteq (fun e => hk (by rw [e]; rfl)) _ _
  | respond j requestId statusCode headers body =>
    simp only [next] at h
    split_ifs at h with hg
    cases h
    rfl

/-- A schedule changes the locals of no run that none of its steps belongs to. -/
theorem run_handlers_frame (k : Nat) :
    ∀ (tr : List Label) (s s1 : State), run tr s = some s1 →
      (∀ l ∈ tr, l.handler ≠ some k) → s1.handlers k = s.handlers k := by
  intro tr
  induction tr with
  | nil =>
    intro s s1 h _
    simp only [run, Option.some.injEq] at h
    rw [h]
  | cons l tr ih =>
    intro s s1 h hk
    simp only [run] at h
    cases hn : next l s with
    | none => simp [hn] at h
    | some s2 =>
      rw [hn] at h
      rw [ih s2 s1 h (fun l2 hl2 => hk l2 (List.mem_cons_of_mem _ hl2)),
        next_handlers_frame k l s s2 hn (hk l (List.mem_cons_self _ _))]

/-- No step ends a stuck send: the only channels handed out later are new ones. -/
theorem stuck_step (c : Chan) (j : Nat) (response : serverResponse) (l : Label) (s s1 : State)
    (inv : Stuck c j response s) (h : next l s = some s1) : Stuck c j response s1 := by
  obtain ⟨h1, h2, h3⟩ := inv
  cases l with
  | serverNew b =>
    simp only [next, ServerNew, Option.some.injEq] at h
    subst h
    cases hs : s.server <;> exact ⟨h1, h2, h3⟩
  | accept i r =>
    simp only [next] at h
    split_ifs at h with hg
    cases h
    refine ⟨h1, h2, update_forall (fun x => x.pc = .select → x.responseChannel ≠ some c) _ _ _ h3 ?_⟩
    rcases handlerBegin_cases s.requestId r with hp | hp <;> simp [hp]
  | incLoad i =>
    simp only [next] at h
    split_ifs at h with hg
    cases h
    exact ⟨h1, h2,
      update_forall (fun x => x.pc = .select → x.responseChannel ≠ some c) _ _ _ h3 (by simp)⟩
  | incStore i =>
    simp only [next] at h
    split_ifs at h with hg
    cases h
    exact ⟨h1, h2,
      update_forall (fun x => x.pc = .select → x.responseChannel ≠ some c) _ _ _ h3 (by simp)⟩
  | register i =>
    simp only [next] at h
    split_ifs at h with hg
    split at h
    · cases h
      exact ⟨h1, h2,
        update_forall (fun x => x.pc = .select → x.responseChannel ≠ some c) _ _ _ h3 (by simp)⟩
    · cases h
      refine ⟨h1, Nat.lt_succ_of_lt h2,
        update_forall (fun x => x.pc = .select → x.responseChannel ≠ some c) _ _ _ h3 ?_⟩
      intro _ hc
      simp only [Option.some.injEq] at hc
      exact Nat.lt_irrefl _ (hc ▸ h2)
  | marshalError i =>
    simp only [next] at h
    split_ifs at h with hg
    split at h <;> cases h <;>
      exact ⟨h1, h2,
        update_forall (fun x => x.pc = .select → x.responseChannel ≠ some c) _ _ _ h3
          (by first | (simp; done) | (unfold Handler.after; split <;> simp))⟩
  | receive i j2 =>
    simp only [next] at h
    split at h
    · rename_i c2 response2 hsend
      split_ifs at h with hg
      cases h
      have hj : j2 ≠ j := by
        intro e
        subst e
        rw [h1] at hsend
        cases hsend
        exact h3 i hg.1 hg.2
      refine ⟨?_, h2,
        update_forall (fun x => x.pc = .select → x.responseChannel ≠ some c) _ _ _ h3
          (by unfold Handler.after; split <;> simp)⟩
      simp only [State.setHandler, Function.update_noteq (Ne.symm hj)]
      exact h1
    · simp at h
  | timeout i =>
    simp only [next] at h
    split_ifs at h with hg
    cases h
    exact ⟨h1, h2,
      update_forall (fun x => x.pc = .select → x.responseChannel ≠ some c) _ _ _ h3
        (by unfold Handler.after; split <;> simp)⟩
  | cleanup i =>
    simp only [next] at h
    split_ifs at h with hg
    cases h
    exact ⟨h1, h2,
      update_forall (fun x => x.pc = .select → x.responseChannel ≠ some c) _ _ _ h3 (by simp)⟩
  | respond j2 requestId statusCode headers body =>
    simp only [next] at h
    split_ifs at h with hg
    cases h
    have hj : j ≠ j2 := by
      intro e
      subst e
      rw [h1] at hg
      cases hg
    exact ⟨by simp only [Function.update_noteq hj]; exact h1, h2, h3⟩

/-! ## How a call ends -/

/-- A call that stands sending either still stands there after a step or has
returned nil. -/
theorem sending_step (c : Chan) (j : Nat) (response : serverResponse) (l : Label)
    (s s1 : State)
    (hs : s.responders j = .sending c response ∨ s.responders j = .returned none)
    (h : next l s = some s1) :
    s1.responders j = .sending c response ∨ s1.responders j = .returned none := by
  cases l with
  | serverNew b =>
    simp only [next, ServerNew, Option.some.injEq] at h
    subst h
    cases hsrv : s.server <;> exact hs
  | accept i r =>
    simp only [next] at h
    split_ifs at h with hg
    cases h
    exact hs
  | incLoad i =>
    simp only [next] at h
    split_ifs at h with hg
    cases h
    exact hs
  | incStore i =>
    simp only [next] at h
    split_ifs at h with hg
    cases h
    exact hs
  | register i =>
    simp only [next] at h
    split_ifs at h with hg
    split at h <;> cases h <;> exact hs
  | marshalError i =>
    simp only [next] at h
    split_ifs at h with hg
    split at h <;> cases h <;> exact hs
  | receive i j2 =>
    simp only [next] at h
    split at h
    · split_ifs at h with hg
      cases h
      simp only [State.setHandler, Function.update_apply]
      split_ifs with hj
      · exact Or.inr rfl
      · exact hs
    · simp at h
  | timeout i =>
    simp only [next] at h
    split_ifs at h with hg
    cases h
    exact hs
  | cleanup i =>
    simp only [next] at h
    split_ifs at h with hg
    cases h
    exact hs
  | respond j2 requestId statusCode headers body =>
    simp only [next] at h
    split_ifs at h with hg
    cases h
    have hj : j ≠ j2 := by
      intro e
      subst e
      rcases hs with hs | hs <;> rw [hs] at hg <;> cases hg
    simp only [Function.update_noteq hj]
    exact hs

/-! ## The sample states are reachable -/

theorem stAtRegister_reachable : Reachable stAtRegister := ⟨traceAtRegister, rfl⟩

theorem stTwoPending_reachable : Reachable stTwoPending := ⟨traceTwoPending, rfl⟩

theorem stBTaken_reachable : Reachable stBTaken :=
  ⟨traceTwoPending ++ [Label.respond 0 1 200 [] "b"], rfl⟩

theorem stTimedOut_reachable : Reachable stTimedOut := ⟨traceTimedOut, rfl⟩

/-- C2, the code at the failing input: one request is registered under id 0 and
times out. Its handler writes 502 and returns, the counter is 1, and key 0 is still
in the table with the channel of that handler; a later `ServerRespond(0, 200, {}, "")`
finds the entry, removes it and stands blocked in its send instead of returning the
"invalid request id" error. -/
theorem timeout_leaves_own_entry :
    (run (traceTimedOut ++ [.cleanup 0]) initState).map (fun s => s.view 0 0 0) =
      some ⟨.done, 0, some 0, .wrote "GET" 502 [] "", .idle, some 0, 1⟩ ∧
    (run (traceTimedOut ++ [.cleanup 0, .respond 0 0 200 [] ""]) initState).map
        (fun s => s.view 0 0 0) =
      some ⟨.done, 0, some 0, .wrote "GET" 502 [] "", .sending 0 ⟨200, [], ""⟩, none, 1⟩ := by
  decide

/-- C5, the code at the failing input: two handler runs both read the counter
before either increments it. Both requests carry id 0, both reach registration and
wait, the counter is 2, and the table entry of id 0 holds the channel of the second
run only. -/
theorem concurrent_requests_share_id :
    (run [.serverNew b8080, .accept 0 reqGet, .accept 1 reqPost, .incLoad 0, .incStore 0,
          .incLoad 1, .incStore 1, .register 0, .register 1] initState).map
        (fun s => s.view 0 0 0) =
      some ⟨.select, 0, some 0, ResponseWriter.new "GET", .idle, some 1, 2⟩ ∧
    (run [.serverNew b8080, .accept 0 reqGet, .accept 1 reqPost, .incLoad 0, .incStore 0,
          .incLoad 1, .incStore 1, .register 0, .register 1] initState).map
        (fun s => s.view 1 0 0) =
      some ⟨.select, 0, some 1, ResponseWriter.new "POST", .idle, some 1, 2⟩ := by
  decide

/-- C8, counterexample: a listener created through a `Bindings` with port 8080 is
running and bound to `0.0.0.0:8080`; `ServerNew` on a `Bindings` with port 9090
returns `0.0.0.0:9090`, which is not the address the listener was bound to. -/
theorem ServerNew_returns_callers_port :
    (ServerNew b8080 initState).2.server = some ⟨"0.0.0.0:8080"⟩ ∧
    (ServerNew b9090 (ServerNew b8080 initState).2).1 = "0.0.0.0:9090" ∧
    (ServerNew b9090 (ServerNew b8080 initState).2).1 ≠ "0.0.0.0:8080" := by
  decide

/-- C8, amended: when a listener is running, `ServerNew` on any `Bindings` value
`b` returns `0.0.0.0:<b.options.LoopbackPort>` and leaves the state as it is (same
server, no listener started); the returned string is the address of the running
listener when that address was formatted from the same port; and a second call on
`b` returns the same string. -/
theorem ServerNew_running (s : State) (b : Bindings) (srv : Server)
    (h : s.server = some srv) :
    (ServerNew b s).1 = bindAddr b ∧
    (ServerNew b s).2 = s ∧
    (ServerNew b s).2.listeners = s.listeners ∧
    (srv.Addr = bindAddr b → (ServerNew b s).1 = srv.Addr) ∧
    (ServerNew b (ServerNew b s).2).1 = (ServerNew b s).1 := by
  have e : ServerNew b s = (bindAddr b, s) := by simp only [ServerNew, h]
  rw [e]
  exact ⟨rfl, rfl, rfl, fun e2 => e2.symm, by simp only [e]⟩

/-- Witness of the amended C8: after `ServerNew` on port 8080 has started the
listener, a second `ServerNew` on port 8080 returns the listener address again and
changes nothing. -/
theorem ServerNew_running_witness :
    (ServerNew b8080 initState).2.server = some ⟨"0.0.0.0:8080"⟩ ∧
    (ServerNew b8080 (ServerNew b8080 initState).2).1 = bindAddr b8080 ∧
    (ServerNew b8080 (ServerNew b8080 initState).2).2 = (ServerNew b8080 initState).2 ∧
    (ServerNew b8080 (ServerNew b8080 initState).2).2.listeners =
      (ServerNew b8080 initState).2.listeners ∧
    ((⟨"0.0.0.0:8080"⟩ : Server).Addr = bindAddr b8080 →
      (ServerNew b8080 (ServerNew b8080 initState).2).1 = (⟨"0.0.0.0:8080"⟩ : Server).Addr) ∧
    (ServerNew b8080 (ServerNew b8080 (ServerNew b8080 initState).2).2).1 =
      (ServerNew b8080 (ServerNew b8080 initState).2).1 :=
  ⟨by decide, ServerNew_running (ServerNew b8080 initState).2 b8080 ⟨"0.0.0.0:8080"⟩ (by decide)⟩

/-- C9: when a handler run stands before the header loop and every name of the
inbound header mapping (a map: no name twice) has at least one value, the loop does
not fail (the run goes on to its `select`), and the `Headers` of the request record
it builds have exactly the names of the inbound mapping, each with the first value
of its list. -/
theorem register_flattens_headers (s : State) (hs : Reachable s) (i : Nat)
    (hpc : (s.handlers i).pc = .register)
    (hmap : (mapKeys (s.handlers i).r.Header).Nodup)
    (hne : ∀ kv ∈ (s.handlers i).r.Header, kv.2 ≠ []) :
    ∃ s1, next (.register i) s = some s1 ∧ (s1.handlers i).pc = .select ∧
      (∀ name, name ∈ mapKeys (s1.handlers i).request.Headers ↔
        name ∈ mapKeys (s.handlers i).r.Header) ∧
      ∀ name values, (name, values) ∈ (s.handlers i).r.Header →
        mapGet (s1.handlers i).request.Headers name = values.head? := by
  have hempty := ((handlerInv_reachable hs).early i (Or.inr (Or.inr hpc))).1
  obtain ⟨m, hm, hkeys, _, hin⟩ := flattenHeaders_spec (s.handlers i).r.Header [] hne
  rw [← hempty] at hm
  simp only [next, hpc, if_true, hm]
  refine ⟨_, rfl, ?_, ?_, ?_⟩
  · simp [State.setHandler]
  · intro name
    simp only [State.setHandler, Function.update_same]
    rw [hkeys name]
    simp [mapKeys]
  · intro name values hmem
    simp only [State.setHandler, Function.update_same]
    exact hin hmap name values hmem

/-- Witness of C9: the request `POST /path?q=1` with `X-Test: 1`, standing before
the header loop. -/
theorem register_flattens_headers_witness :
    Reachable stAtRegister ∧
    ∃ s1, next (.register 0) stAtRegister = some s1 ∧ (s1.handlers 0).pc = .select ∧
      (∀ name, name ∈ mapKeys (s1.handlers 0).request.Headers ↔
        name ∈ mapKeys (stAtRegister.handlers 0).r.Header) ∧
      ∀ name values, (name, values) ∈ (stAtRegister.handlers 0).r.Header →
        mapGet (s1.handlers 0).request.Headers name = values.head? :=
  ⟨stAtRegister_reachable,
   register_flattens_headers stAtRegister stAtRegister_reachable 0 (by decide) (by decide)
     (by decide)⟩

/-- C7: `ServerRespond(id, ...)` leaves the table entry of every other id, every
handler run and every other call as they were. When `id` is not a key the whole
table is unchanged, the call has returned the error and no receive from it can
happen. When `id` is a key with channel `c` the table is the original one with
exactly `id` deleted, the call stands sending on `c`, and a receive from it is
taken by a run whose channel is `c` and changes no other run. -/
theorem respond_frame (s s1 : State) (j : Nat) (id statusCode : Int) (headers : StrMap String)
    (body : String) (h : next (.respond j id statusCode headers body) s = some s1) :
    (∀ k, k ≠ id → s1.serverRequests k = s.serverRequests k) ∧
    s1.handlers = s.handlers ∧
    (∀ j2, j2 ≠ j → s1.responders j2 = s.responders j2) ∧
    (s.serverRequests id = none →
      s1.serverRequests = s.serverRequests ∧
      s1.responders j = .returned (some "invalid request id") ∧
      ∀ i, next (.receive i j) s1 = none) ∧
    (∀ c, s.serverRequests id = some c →
      s1.serverRequests = s.serverRequests.delete id ∧
      s1.serverRequests id = none ∧
      s1.responders j = .sending c ⟨statusCode, headers, body⟩ ∧
      ∀ i s2, next (.receive i j) s1 = some s2 →
        (s.handlers i).responseChannel = some c ∧
        s2.serverRequests = s1.serverRequests ∧
        ∀ i2, i2 ≠ i → s2.handlers i2 = s.handlers i2) := by
  simp only [next] at h
  split_ifs at h with hg
  cases h
  refine ⟨?_, rfl, ?_, ?_, ?_⟩
  · intro k hk
    simp only [ServerRespond]
    split
    · simp [Table.delete, hk]
    · rfl
  · intro j2 hj2
    simp only [Function.update_noteq hj2]
  · intro hnone
    simp [ServerRespond, hnone, next]
  · intro c hc
    refine ⟨by simp [ServerRespond, hc], by simp [ServerRespond, hc, Table.delete],
      by simp [ServerRespond, hc], ?_⟩
    intro i s2 h2
    simp only [next, ServerRespond, hc, Function.update_same] at h2
    split_ifs at h2 with hg2
    cases h2
    refine ⟨hg2.2, by simp [State.setHandler, ServerRespond, hc], ?_⟩
    intro i2 hi2
    simp only [State.setHandler, Function.update_noteq hi2]

/-- Witness of C7, the out-of-order example: A (id 0) and B (id 1) are pending;
`ServerRespond(1, 200, {}, "b")` leaves A in the table with its own channel 0, and
a later `ServerRespond(0, 201, {}, "a")` reaches the handler of A while the handler
of B has written the response of B. -/
theorem respond_frame_witness :
    (next (.respond 0 1 200 [] "b") stTwoPending = some stBTaken ∧
      (∀ k, k ≠ 1 → stBTaken.serverRequests k = stTwoPending.serverRequests k) ∧
      stBTaken.handlers = stTwoPending.handlers ∧
      (∀ j2, j2 ≠ 0 → stBTaken.responders j2 = stTwoPending.responders j2) ∧
      (stTwoPending.serverRequests 1 = none →
        stBTaken.serverRequests = stTwoPending.serverRequests ∧
        stBTaken.responders 0 = .returned (some "invalid request id") ∧
        ∀ i, next (.receive i 0) stBTaken = none) ∧
      (∀ c, stTwoPending.serverRequests 1 = some c →
        stBTaken.serverRequests = stTwoPending.serverRequests.delete 1 ∧
        stBTaken.serverRequests 1 = none ∧
        stBTaken.responders 0 = .sending c ⟨200, [], "b"⟩ ∧
        ∀ i s2, next (.receive i 0) stBTaken = some s2 →
          (stTwoPending.handlers i).responseChannel = some c ∧
          s2.serverRequests = stBTaken.serverRequests ∧
          ∀ i2, i2 ≠ i → s2.handlers i2 = stTwoPending.handlers i2)) ∧
    stTwoPending.serverRequests 1 = some 1 ∧
    stBTaken.view 0 0 0 =
      ⟨.select, 0, some 0, ResponseWriter.new "GET", .sending 1 ⟨200, [], "b"⟩, some 0, 2⟩ ∧
    (run (traceTwoPending ++ [.respond 0 1 200 [] "b", .receive 1 0,
        .respond 1 0 201 [] "a", .receive 0 1]) initState).map (fun s => s.view 0 1 0) =
      some ⟨.cleanup, 0, some 0, .wrote "GET" 201 [] "a", .returned none, none, 2⟩ ∧
    (run (traceTwoPending ++ [.respond 0 1 200 [] "b", .receive 1 0,
        .respond 1 0 201 [] "a", .receive 0 1]) initState).map (fun s => s.view 1 0 1) =
      some ⟨.cleanup, 1, some 1, .wrote "POST" 200 [] "b", .returned none, none, 2⟩ :=
  ⟨⟨rfl, respond_frame stTwoPending stBTaken 0 1 200 [] "b" rfl⟩, by decide, by decide,
   by decide, by decide⟩

/-- C4: after a call `ServerRespond(id, ...)`, and after any further steps among
which no handler registers `id`, a second call `ServerRespond(id, ...)` returns the
"invalid request id" error at once and leaves the table as it is, whatever the
arguments of the two calls; so at most the first of the two succeeds. -/
theorem second_respond_invalid (s s1 s2 : State) (j j2 : Nat) (id statusCode statusCode2 : Int)
    (headers headers2 : StrMap String) (body body2 : String) (tr : List Label)
    (h1 : next (.respond j id statusCode headers body) s = some s1)
    (h2 : runAvoiding id tr s1 = some s2)
    (hj2 : s2.responders j2 = .idle) :
    ∃ s3, next (.respond j2 id statusCode2 headers2 body2) s2 = some s3 ∧
      s3.responders j2 = .returned (some "invalid request id") ∧
      s3.serverRequests = s2.serverRequests := by
  have habs1 : s1.serverRequests id = none := by
    simp only [next] at h1
    split_ifs at h1 with hg
    cases h1
    simp only [ServerRespond]
    split
    · simp [Table.delete]
    · assumption
  have habs2 := runAvoiding_absent id tr s1 s2 h2 habs1
  simp only [next, hj2, if_true, ServerRespond, habs2, Function.update_same]
  exact ⟨_, rfl, by simp, rfl⟩

/-- Witness of C4: request 0 is pending, a first `ServerRespond(0, ...)` takes it
and is received by the handler, which returns; a second `ServerRespond(0, ...)`
returns the error. -/
theorem second_respond_invalid_witness :
    next (.respond 0 0 201 [("X-Reply", "ok")] "world") stPending = some stFirstCall ∧
    runAvoiding 0 [.receive 0 0, .cleanup 0] stFirstCall = some stAnswered ∧
    stAnswered.responders 0 = .returned none ∧
    stAnswered.responders 1 = .idle ∧
    ∃ s3, next (.respond 1 0 200 [] "again") stAnswered = some s3 ∧
      s3.responders 1 = .returned (some "invalid request id") ∧
      s3.serverRequests = stAnswered.serverRequests :=
  ⟨rfl, rfl, by decide, by decide,
   second_respond_invalid stPending stFirstCall stAnswered 0 1 0 201 200 [("X-Reply", "ok")] []
     "world" "again" [.receive 0 0, .cleanup 0] rfl rfl (by decide)⟩

/-- C1, counterexample: request 0 was registered and its wait has ended by
timeout, its handler standing before the final `delete`. Key 0 is in the table, and
a call `ServerRespond(0, 200, {}, "")` made now does not return nil: whatever
happens afterwards, it stands blocked in its send. -/
theorem ServerRespond_blocks_after_timeout :
    Reachable stTimedOut ∧ stTimedOut.serverRequests 0 = some 0 ∧
    ∀ tr s1, run (.respond 0 0 200 [] "" :: tr) stTimedOut = some s1 →
      s1.responders 0 = .sending 0 ⟨200, [], ""⟩ := by
  refine ⟨stTimedOut_reachable, by decide, ?_⟩
  intro tr s1 h
  have hfirst : next (.respond 0 0 200 [] "") stTimedOut = some stBlocked := rfl
  simp only [run, hfirst, Option.some_bind] at h
  have hstuck : Stuck 0 0 ⟨200, [], ""⟩ stBlocked := by
    refine ⟨by decide, by decide, ?_⟩
    intro i
    by_cases hi : i = 0
    · subst hi
      decide
    · have hrun : run (traceTimedOut ++ [.respond 0 0 200 [] ""]) initState =
          some stBlocked := rfl
      have hframe := run_handlers_frame i _ _ _ hrun (by
        intro l hl
        simp only [traceTimedOut, List.cons_append, List.nil_append, List.mem_cons,
          List.mem_singleton, List.not_mem_nil, or_false] at hl
        rcases hl with rfl | rfl | rfl | rfl | rfl | rfl | rfl <;>
          simp [Label.handler, Ne.symm hi])
      rw [hframe]
      simp [initState, Handler.idle]
  exact (run_preserves (Stuck 0 0 ⟨200, [], ""⟩) (stuck_step 0 0 ⟨200, [], ""⟩) tr _ _
    hstuck h).call

/-- C1, amended: a call `ServerRespond(requestId, ...)` returns the "invalid
request id" error, at once, if and only if `requestId` is not a key of the table at
the time of the call. When `requestId` is a key with channel `c`, the call removes
the entry and stands sending the record on `c`; from then on it either still stands
there or has returned nil, and it returns nil in the step in which a handler run
waiting on `c` receives the record. -/
theorem ServerRespond_result (s : State) (j : Nat) (requestId statusCode : Int)
    (headers : StrMap String) (body : String) (hj : s.responders j = .idle) :
    ∃ s1, next (.respond j requestId statusCode headers body) s = some s1 ∧
      (s1.responders j = .returned (some "invalid request id") ↔
        s.serverRequests requestId = none) ∧
      ∀ c, s.serverRequests requestId = some c →
        s1.serverRequests requestId = none ∧
        s1.responders j = .sending c ⟨statusCode, headers, body⟩ ∧
        (∀ tr s2, run tr s1 = some s2 →
          s2.responders j = .sending c ⟨statusCode, headers, body⟩ ∨
            s2.responders j = .returned none) ∧
        ∀ i, (s1.handlers i).pc = .select → (s1.handlers i).responseChannel = some c →
          ∃ s2, next (.receive i j) s1 = some s2 ∧ s2.responders j = .returned none := by
  simp only [next, hj, if_true]
  refine ⟨_, rfl, ?_, ?_⟩
  · cases hk : s.serverRequests requestId <;> simp [ServerRespond, hk]
  · intro c hc
    refine ⟨by simp [ServerRespond, hc, Table.delete], by simp [ServerRespond, hc], ?_, ?_⟩
    · intro tr s2 h2
      exact run_preserves
        (fun x => x.responders j = .sending c ⟨statusCode, headers, body⟩ ∨
          x.responders j = .returned none)
        (sending_step c j ⟨statusCode, headers, body⟩) tr _ _
        (Or.inl (by simp [ServerRespond, hc])) h2
    · intro i hpc hchan
      simp only [ServerRespond, hc] at hpc hchan
      simp only [next, ServerRespond, hc, Function.update_same, hpc, hchan, and_self, if_true]
      exact ⟨_, rfl, by simp [State.setHandler]⟩

/-- Witness of the amended C1: with request 0 waiting, `ServerRespond(0, 201,
{"X-Reply": "ok"}, "world")` takes the entry and returns nil when run 0 receives;
`ServerRespond(7, ...)` returns the error. -/
theorem ServerRespond_result_witness :
    (∃ s1, next (.respond 0 0 201 [("X-Reply", "ok")] "world") stPending = some s1 ∧
      (s1.responders 0 = .returned (some "invalid request id") ↔
        stPending.serverRequests 0 = none) ∧
      ∀ c, stPending.serverRequests 0 = some c →
        s1.serverRequests 0 = none ∧
        s1.responders 0 = .sending c ⟨201, [("X-Reply", "ok")], "world"⟩ ∧
        (∀ tr s2, run tr s1 = some s2 →
          s2.responders 0 = .sending c ⟨201, [("X-Reply", "ok")], "world"⟩ ∨
            s2.responders 0 = .returned none) ∧
        ∀ i, (s1.handlers i).pc = .select → (s1.handlers i).responseChannel = some c →
          ∃ s2, next (.receive i 0) s1 = some s2 ∧ s2.responders 0 = .returned none) ∧
    stPending.serverRequests 0 = some 0 ∧
    (next (.respond 0 7 200 [] "") stPending).map (fun s => s.view 0 0 0) =
      some ⟨.select, 0, some 0, ResponseWriter.new "POST",
        .returned (some "invalid request id"), some 0, 1⟩ :=
  ⟨ServerRespond_result stPending 0 0 201 [("X-Reply", "ok")] "world" (by decide), by decide,
   by decide⟩

/-- C3, counterexample: request 0 is waiting in its `select` and `ServerRespond(0,
...)` has taken its entry but not yet handed over the record. The handler is blocked
on the reply channel of id 0, and 0 is not a key of the table. -/
theorem waiting_handler_without_entry :
    (run (tracePending ++ [.respond 0 0 201 [("X-Reply", "ok")] "world"]) initState).map
        (fun s => s.view 0 0 0) =
      some ⟨.select, 0, some 0, ResponseWriter.new "POST",
        .sending 0 ⟨201, [("X-Reply", "ok")], "world"⟩, none, 1⟩ := by
  decide

/-- C3, amended: in every reachable state, an id is a key of the table only if a
handler run registered it, with the stored channel, under its own `request.Id`, and
is at or past its `select`; a handler run receives a record only on a channel that
is no longer in the table; and no entry is removed from the table twice (so never
by both the final `delete` of a handler and `ServerRespond`), nor is an entry of
the table one that was removed before. -/
theorem table_entries_owned (s : State) (hs : Reachable s) :
    (∀ id c, s.serverRequests id = some c →
      ∃ i, (s.handlers i).responseChannel = some c ∧ (s.handlers i).request.Id = id ∧
        ((s.handlers i).pc = .select ∨ (s.handlers i).pc = .cleanup ∨
          (s.handlers i).pc = .done)) ∧
    (∀ i j s2, next (.receive i j) s = some s2 →
      ∀ id, s.serverRequests id ≠ (s.handlers i).responseChannel) ∧
    s.removed.Nodup ∧
    ∀ id c, s.serverRequests id = some c → c ∉ s.removed := by
  have hinv := handlerInv_reachable hs
  have linv := logInv_reachable hs
  have sinv := sendInv_reachable hs
  refine ⟨?_, ?_, linv.nodup, linv.notRemoved⟩
  · intro id c hc
    obtain ⟨i, hchan, hid⟩ := hinv.registered id c hc
    refine ⟨i, hchan, hid, ?_⟩
    rcases (hinv.owned i c hchan).2 with hp | hp | hp | hp
    · exact Or.inl hp
    · exact Or.inr (Or.inl hp)
    · exact Or.inr (Or.inr hp)
    · exact absurd hp.2 (linv.notRemoved id c hc)
  · intro i j s2 h id hid
    simp only [next] at h
    split at h
    · rename_i c response hsend
      split_ifs at h with hg
      rw [hg.2] at hid
      exact linv.notRemoved id c hid (sinv j c response hsend)
    · simp at h

/-- Witness of the amended C3 at the state where A and B were waiting and
`ServerRespond` has taken the entry of B: A is still in the table, the channel of B
is in the log of removed entries. -/
theorem table_entries_owned_witness :
    Reachable stBTaken ∧
    (∀ id c, stBTaken.serverRequests id = some c →
      ∃ i, (stBTaken.handlers i).responseChannel = some c ∧
        (stBTaken.handlers i).request.Id = id ∧
        ((stBTaken.handlers i).pc = .select ∨ (stBTaken.handlers i).pc = .cleanup ∨
          (stBTaken.handlers i).pc = .done)) ∧
    (∀ i j s2, next (.receive i j) stBTaken = some s2 →
      ∀ id, stBTaken.serverRequests id ≠ (stBTaken.handlers i).responseChannel) ∧
    stBTaken.removed.Nodup ∧
    ∀ id c, stBTaken.serverRequests id = some c → c ∉ stBTaken.removed :=
  ⟨stBTaken_reachable, table_entries_owned stBTaken stBTaken_reachable⟩

end Sage
